import Mathlib

/-!
Verification of the sure-bet engine of the `sure_bet` repository
(`src/surebet/find_surebet.py`, `src/surebet/f_surebet.py`,
`src/surebet/find_surebet_all.py`).

Odds, stakes and thresholds are modelled as exact rationals (`ℚ`): the
Python code works on parsed decimal odds and on exact sympy solutions of a
3x3 linear system, and all claim-relevant arithmetic is algebraic, so it is
embedded here over `ℚ`.
-/

namespace SureBet

/-- A stake/profit plan: the dictionary returned by `beat_bookies`
(`find_surebet.py` lines 312-338) with its six fields
`Stake1, Stake2, Stake3, Profit1, Profit2, Profit3`. -/
structure StakePlan where
  Stake1 : ℚ
  Stake2 : ℚ
  Stake3 : ℚ
  Profit1 : ℚ
  Profit2 : ℚ
  Profit3 : ℚ
  deriving DecidableEq, Repr

/-- The all-zero plan returned by `beat_bookies` when the solver yields no
usable nonnegative solution. -/
def zeroPlan : StakePlan := ⟨0, 0, 0, 0, 0, 0⟩

/-- The equal-payout equations solved by `beat_bookies` through sympy:
`x + y + z = total_stake`, `odds1*x = odds2*y`, `odds1*x = odds3*z`
(`find_surebet.py` lines 315-317). -/
def isStakeSolution (o1 o2 o3 S s1 s2 s3 : ℚ) : Prop :=
  s1 + s2 + s3 = S ∧ o1 * s1 = o2 * s2 ∧ o1 * s1 = o3 * s3

/-- The sympy `solve` call inside `beat_bookies`: the linear system
`x+y+z = S`, `o1*x = o2*y`, `o1*x = o3*z` has the unique solution below
exactly when its determinant `o1*o2 + o1*o3 + o2*o3` is nonzero; when the
determinant vanishes `solve` yields no usable concrete solution (an empty or
a parametric answer, both of which `beat_bookies` turns into the zero plan,
through the empty-solution branch or the catch-all handler). -/
def solveStakes (o1 o2 o3 S : ℚ) : Option (ℚ × ℚ × ℚ) :=
  if o1 * o2 + o1 * o3 + o2 * o3 = 0 then none
  else some (S * (o2 * o3) / (o1 * o2 + o1 * o3 + o2 * o3),
             S * (o1 * o3) / (o1 * o2 + o1 * o3 + o2 * o3),
             S * (o1 * o2) / (o1 * o2 + o1 * o3 + o2 * o3))

/-- `beat_bookies` from `find_surebet.py` lines 312-338 (same logic in
`f_surebet.py` lines 328-352): solve the equal-payout system; if there is no
solution or some stake is negative, return the all-zero plan; otherwise
return the stakes together with the profits `odds_i * stake_i - total_stake`. -/
def beat_bookies (o1 o2 o3 S : ℚ) : StakePlan :=
  match solveStakes o1 o2 o3 S with
  | none => zeroPlan
  | some (s1, s2, s3) =>
    if s1 < 0 ∨ s2 < 0 ∨ s3 < 0 then zeroPlan
    else ⟨s1, s2, s3, o1 * s1 - S, o2 * s2 - S, o3 * s3 - S⟩

/-- `beat_bookies` from `find_surebet_all.py` lines 140-166: same system, but
with no negativity check on the solved stakes. -/
def beat_bookies_all (o1 o2 o3 S : ℚ) : StakePlan :=
  match solveStakes o1 o2 o3 S with
  | none => zeroPlan
  | some (s1, s2, s3) => ⟨s1, s2, s3, o1 * s1 - S, o2 * s2 - S, o3 * s3 - S⟩

/-- Existence of a nonnegative solution of the equal-payout system. -/
def NonnegSolutionExists (o1 o2 o3 S : ℚ) : Prop :=
  ∃ s1 s2 s3 : ℚ, 0 ≤ s1 ∧ 0 ≤ s2 ∧ 0 ≤ s3 ∧ isStakeSolution o1 o2 o3 S s1 s2 s3

/-- `implied` as computed by `calculate_implied_probabilities`
(`find_surebet.py` lines 420-422). -/
def implied (b1 bx b2 : ℚ) : ℚ := 1 / b1 + 1 / bx + 1 / b2

/-- A merged ("master") row: the merge key plus, per source, either that
source's odds triple (1, x, 2) or `none` when the source had no accepted
match — the wide row built by `full_multiway_fuzzy_merge` and consumed by
`calculate_implied_probabilities`. -/
structure MergedRow where
  key  : String
  odds : List (String × Option (ℚ × ℚ × ℚ))
  deriving DecidableEq, Repr

/-- The `{source}_1` columns of a merged row. -/
def vals1 (rec : MergedRow) : List (String × Option ℚ) :=
  rec.odds.map fun p => (p.1, p.2.map fun t => t.1)

/-- The `{source}_x` columns of a merged row. -/
def valsx (rec : MergedRow) : List (String × Option ℚ) :=
  rec.odds.map fun p => (p.1, p.2.map fun t => t.2.1)

/-- The `{source}_2` columns of a merged row. -/
def vals2 (rec : MergedRow) : List (String × Option ℚ) :=
  rec.odds.map fun p => (p.1, p.2.map fun t => t.2.2)

/-- pandas `DataFrame.min(axis=1, skipna=True)` over one outcome's odds
columns: the minimum of the present values, `none` when all are missing. -/
def rowMin (vals : List (String × Option ℚ)) : Option ℚ :=
  (vals.filterMap Prod.snd).min?

/-- pandas `DataFrame.max(axis=1, skipna=True)`. -/
def rowMax (vals : List (String × Option ℚ)) : Option ℚ :=
  (vals.filterMap Prod.snd).max?

/-- pandas `idxmin(axis=1)`: the first column attaining the row minimum. -/
def rowIdxmin (vals : List (String × Option ℚ)) : Option String :=
  match rowMin vals with
  | none => none
  | some m => (vals.find? fun p => decide (p.2 = some m)).map Prod.fst

/-- pandas `idxmax(axis=1)`: the first column attaining the row maximum. -/
def rowIdxmax (vals : List (String × Option ℚ)) : Option String :=
  match rowMax vals with
  | none => none
  | some m => (vals.find? fun p => decide (p.2 = some m)).map Prod.fst

/-- `best_1` as computed by `calculate_implied_probabilities`
(`find_surebet.py` line 399, likewise `f_surebet.py` line 369): the row-wise
MINIMUM of the per-source home odds. -/
def best_1 (rec : MergedRow) : Option ℚ := rowMin (vals1 rec)

/-- `best_x` (`find_surebet.py` line 400). -/
def best_x (rec : MergedRow) : Option ℚ := rowMin (valsx rec)

/-- `best_2` (`find_surebet.py` line 401). -/
def best_2 (rec : MergedRow) : Option ℚ := rowMin (vals2 rec)

/-- `best_1_source` (`find_surebet.py` line 403): `idxmin` with the `_1`
suffix stripped, modelled as the bare source name. -/
def best_1_source (rec : MergedRow) : Option String := rowIdxmin (vals1 rec)

/-- `best_x_source` (`find_surebet.py` line 404). -/
def best_x_source (rec : MergedRow) : Option String := rowIdxmin (valsx rec)

/-- `best_2_source` (`find_surebet.py` line 405). -/
def best_2_source (rec : MergedRow) : Option String := rowIdxmin (vals2 rec)

/-- `best_1` as computed by `find_surebet_all.py` line 211: row-wise MAXIMUM. -/
def best_1_all (rec : MergedRow) : Option ℚ := rowMax (vals1 rec)

/-- `best_x` of `find_surebet_all.py` line 212. -/
def best_x_all (rec : MergedRow) : Option ℚ := rowMax (valsx rec)

/-- `best_2` of `find_surebet_all.py` line 213. -/
def best_2_all (rec : MergedRow) : Option ℚ := rowMax (vals2 rec)

/-- `best_1_source` of `find_surebet_all.py` lines 217, 222-223 (`idxmax`,
suffix stripped). -/
def best_1_source_all (rec : MergedRow) : Option String := rowIdxmax (vals1 rec)

/-- Membership of a merged row in the `sure_bets` output set of
`calculate_implied_probabilities` (`find_surebet.py` lines 411-430): the row
survives the `df_valid` filter (all three best odds present and positive; a
missing best never satisfies `> 0`) and has implied probability < 1. -/
def inSureBets (rec : MergedRow) : Bool :=
  match best_1 rec, best_x rec, best_2 rec with
  | some b1, some bx, some b2 =>
      decide (0 < b1) && decide (0 < bx) && decide (0 < b2) &&
      decide (implied b1 bx b2 < 1)
  | _, _, _ => false

/-- A cleaned row of one source's table, as produced by
`extract_relevant_columns` (`find_surebet.py` lines 216-242): home, away,
kickoff time (rendered as text) and three numeric odds. -/
structure CRow where
  home : String
  away : String
  time : String
  o1 : ℚ
  ox : ℚ
  o2 : ℚ
  deriving DecidableEq, Repr

/-- The `merge_key` column added by `full_multiway_fuzzy_merge`
(`find_surebet.py` line 258): `f"{home.strip()} vs {away.strip()} {time}"`. -/
def mergeKey (r : CRow) : String :=
  r.home.trim ++ " vs " ++ r.away.trim ++ " " ++ r.time

/-- One cleaned bookie table: source name plus rows. -/
structure Source where
  name : String
  rows : List CRow
  deriving Repr

/-- The merge keys of one source (`keys_by_bookie[bookie]`). -/
def keysOf (src : Source) : List String := src.rows.map mergeKey

/-- The universe of master keys (`find_surebet.py` lines 253-264): the union
over all sources of their merge keys; the Python `set` (which holds each key
once, in unspecified order) is modelled as `dedup`. -/
def masterKeys (srcs : List Source) : List String :=
  (srcs.flatMap keysOf).dedup

/-- `np.argmax`/`np.max` over the similarity scores of one source's keys
against a master key (`find_surebet.py` lines 272-275): the first key
attaining the maximal score, together with that score (`np.argmax` keeps the
first maximum); `none` for an empty key list. The rapidfuzz scorer
(`fuzz.token_set_ratio`) is an external library function and enters the
model as the abstract argument `score`. -/
def argmaxScore (score : String → String → ℚ) (mk : String)
    (ks : List String) : Option (String × ℚ) :=
  ks.foldl (fun acc k =>
    match acc with
    | none => some (k, score mk k)
    | some (bk, bs) => if bs < score mk k then some (k, score mk k) else some (bk, bs))
    none

/-- Threshold acceptance (`find_surebet.py` lines 277-283): the best-scoring
key of the source when its score reaches the threshold, otherwise `none`. -/
def acceptedMatch (score : String → String → ℚ) (t : ℚ) (mk : String)
    (ks : List String) : Option String :=
  match argmaxScore score mk ks with
  | none => none
  | some (bk, bs) => if bs ≥ t then some bk else none

/-- The source row matched to a master key
(`rows_by_bookie[bookie].loc[match_key]`, `find_surebet.py` line 295):
lookup of the accepted key, first row carrying that merge key. -/
def matchedRow (score : String → String → ℚ) (t : ℚ) (mk : String)
    (src : Source) : Option CRow :=
  match acceptedMatch score t mk (keysOf src) with
  | none => none
  | some k => src.rows.find? fun r => decide (mergeKey r = k)

/-- One master record (`find_surebet.py` lines 287-308): the master key, the
base home/away/time taken from the first source with a match, and per source
either its odds triple or `none`. -/
structure MasterRecord where
  key : String
  base : Option (String × String × String)
  odds : List (String × Option (ℚ × ℚ × ℚ))
  deriving Repr

/-- The row compiled for one master key (`find_surebet.py` lines 287-308). -/
def mkRecord (score : String → String → ℚ) (srcs : List Source) (t : ℚ)
    (mk : String) : MasterRecord :=
  { key := mk
    base := ((srcs.filterMap (matchedRow score t mk)).head?).map fun r =>
      (r.home, r.away, r.time)
    odds := srcs.map fun src =>
      (src.name, (matchedRow score t mk src).map fun r => (r.o1, r.ox, r.o2)) }

/-- `full_multiway_fuzzy_merge` (`find_surebet.py` lines 247-310): one master
record per master key. -/
def full_multiway_fuzzy_merge (score : String → String → ℚ) (srcs : List Source)
    (t : ℚ) : List MasterRecord :=
  (masterKeys srcs).map (mkRecord score srcs t)

/-- The `sum_odds` helper column (`find_surebet.py` line 227). -/
def sumOdds (r : CRow) : ℚ := r.o1 + r.ox + r.o2

/-- The groupby key of the intra-source deduplication
(`find_surebet.py` line 229): (home, away, time). -/
def rowKey (r : CRow) : String × String × String := (r.home, r.away, r.time)

/-- The comparison used by `sort_values(by='sum_odds')`. -/
def oddsLE (a b : CRow) : Prop := sumOdds a ≤ sumOdds b

instance : DecidableRel oddsLE := fun a b =>
  inferInstanceAs (Decidable (sumOdds a ≤ sumOdds b))

instance : IsTotal CRow oddsLE := ⟨fun a b => le_total (sumOdds a) (sumOdds b)⟩

instance : IsTrans CRow oddsLE := ⟨fun _ _ _ hab hbc => le_trans hab hbc⟩

/-- `groupby(["home","away","time"]).first()` applied to the sorted table:
keep the first row of each key, in order of appearance. -/
def keepFirstByKey : List (String × String × String) → List CRow → List CRow
  | _, [] => []
  | seen, r :: rs =>
    if rowKey r ∈ seen then keepFirstByKey seen rs
    else r :: keepFirstByKey (rowKey r :: seen) rs

/-- The deduplication step of `extract_relevant_columns`
(`find_surebet.py` lines 227-229): sort the rows by odds-sum ascending, then
keep one row per (home, away, time) key — the first of its group. -/
def dedupMinSum (rows : List CRow) : List CRow :=
  keepFirstByKey [] (List.insertionSort oddsLE rows)

/-- `REQUIRED_COLUMNS` of `find_surebet.py` line 89 ("Now require both
teams!"): `away` is among the required columns. -/
def REQUIRED_COLUMNS : List String := ["home", "away", "1", "x", "2", "time"]

/-- The missing-column list computed by `validate_schema`
(`find_surebet.py` line 104). -/
def missingColumns (cols : List String) : List String :=
  REQUIRED_COLUMNS.filter fun c => !cols.contains c

/-- `validate_schema` (`find_surebet.py` lines 103-107) as a boolean: `true`
when no required column is missing, `false` when it raises
`MissingColumnError`. -/
def validate_schema_ok (cols : List String) : Bool :=
  (missingColumns cols).isEmpty

/-- The cleaning loop of `main` (`find_surebet.py` lines 475-494): a source
whose post-mapping column set fails validation is skipped (the raised
`MissingColumnError` is caught and logged) and the loop continues; the
surviving sources are kept in order. Modelled on (name, column set) pairs. -/
def cleanSources (srcs : List (String × List String)) : List String :=
  srcs.filterMap fun p => if validate_schema_ok p.2 then some p.1 else none

/-! ### Helper lemmas about the stake allocator -/

-- The determinant of the equal-payout system is positive for positive odds.
theorem det_pos {o1 o2 o3 : ℚ} (h1 : 0 < o1) (h2 : 0 < o2) (h3 : 0 < o3) :
    0 < o1 * o2 + o1 * o3 + o2 * o3 :=
  add_pos (add_pos (mul_pos h1 h2) (mul_pos h1 h3)) (mul_pos h2 h3)

-- When the determinant is nonzero, `solveStakes` returns the closed-form triple.
theorem solveStakes_eq_some {o1 o2 o3 : ℚ} (S : ℚ)
    (hD : o1 * o2 + o1 * o3 + o2 * o3 ≠ 0) :
    solveStakes o1 o2 o3 S =
      some (S * (o2 * o3) / (o1 * o2 + o1 * o3 + o2 * o3),
            S * (o1 * o3) / (o1 * o2 + o1 * o3 + o2 * o3),
            S * (o1 * o2) / (o1 * o2 + o1 * o3 + o2 * o3)) := by
  simp [solveStakes, hD]

-- Whatever `solveStakes` returns satisfies the three equations.
theorem solveStakes_isStakeSolution {o1 o2 o3 S s1 s2 s3 : ℚ}
    (h : solveStakes o1 o2 o3 S = some (s1, s2, s3)) :
    isStakeSolution o1 o2 o3 S s1 s2 s3 := by
  unfold solveStakes at h
  by_cases hD : o1 * o2 + o1 * o3 + o2 * o3 = 0
  · simp [hD] at h
  · rw [if_neg hD] at h
    simp only [Option.some.injEq, Prod.mk.injEq] at h
    obtain ⟨e1, e2, e3⟩ := h
    subst e1 e2 e3
    refine ⟨?_, ?_, ?_⟩ <;> field_simp <;> ring

-- Equation lemma: `beat_bookies` when the solver returns a triple.
theorem beat_bookies_of_solve {o1 o2 o3 S s1 s2 s3 : ℚ}
    (h : solveStakes o1 o2 o3 S = some (s1, s2, s3)) :
    beat_bookies o1 o2 o3 S =
      if s1 < 0 ∨ s2 < 0 ∨ s3 < 0 then zeroPlan
      else ⟨s1, s2, s3, o1 * s1 - S, o2 * s2 - S, o3 * s3 - S⟩ := by
  unfold beat_bookies
  rw [h]

-- Equation lemma: `beat_bookies` when the solver fails.
theorem beat_bookies_of_none {o1 o2 o3 S : ℚ} (h : solveStakes o1 o2 o3 S = none) :
    beat_bookies o1 o2 o3 S = zeroPlan := by
  unfold beat_bookies
  rw [h]

-- Case analysis of `beat_bookies`: either the zero plan, or nonnegative stakes
-- that solve the equal-payout system together with the profit fields.
theorem beat_bookies_cases (o1 o2 o3 S : ℚ) :
    beat_bookies o1 o2 o3 S = zeroPlan ∨
    (0 ≤ (beat_bookies o1 o2 o3 S).Stake1 ∧ 0 ≤ (beat_bookies o1 o2 o3 S).Stake2 ∧
     0 ≤ (beat_bookies o1 o2 o3 S).Stake3 ∧
     isStakeSolution o1 o2 o3 S (beat_bookies o1 o2 o3 S).Stake1
       (beat_bookies o1 o2 o3 S).Stake2 (beat_bookies o1 o2 o3 S).Stake3 ∧
     (beat_bookies o1 o2 o3 S).Profit1 = o1 * (beat_bookies o1 o2 o3 S).Stake1 - S ∧
     (beat_bookies o1 o2 o3 S).Profit2 = o2 * (beat_bookies o1 o2 o3 S).Stake2 - S ∧
     (beat_bookies o1 o2 o3 S).Profit3 = o3 * (beat_bookies o1 o2 o3 S).Stake3 - S) := by
  cases hsolve : solveStakes o1 o2 o3 S with
  | none => exact Or.inl (beat_bookies_of_none hsolve)
  | some t =>
    obtain ⟨s1, s2, s3⟩ := t
    have heq := beat_bookies_of_solve hsolve
    by_cases hneg : s1 < 0 ∨ s2 < 0 ∨ s3 < 0
    · rw [if_pos hneg] at heq
      exact Or.inl heq
    · rw [if_neg hneg] at heq
      push_neg at hneg
      rw [heq]
      exact Or.inr ⟨hneg.1, hneg.2.1, hneg.2.2, solveStakes_isStakeSolution hsolve,
        rfl, rfl, rfl⟩

-- With positive odds and a nonnegative total stake, the closed-form solution
-- is a nonnegative solution of the system.
theorem nonneg_solution_of_pos {o1 o2 o3 S : ℚ} (h1 : 0 < o1) (h2 : 0 < o2) (h3 : 0 < o3)
    (hS : 0 ≤ S) : NonnegSolutionExists o1 o2 o3 S := by
  have hD := det_pos h1 h2 h3
  refine ⟨S * (o2 * o3) / (o1 * o2 + o1 * o3 + o2 * o3),
          S * (o1 * o3) / (o1 * o2 + o1 * o3 + o2 * o3),
          S * (o1 * o2) / (o1 * o2 + o1 * o3 + o2 * o3),
          div_nonneg (mul_nonneg hS (mul_nonneg h2.le h3.le)) hD.le,
          div_nonneg (mul_nonneg hS (mul_nonneg h1.le h3.le)) hD.le,
          div_nonneg (mul_nonneg hS (mul_nonneg h1.le h2.le)) hD.le,
          solveStakes_isStakeSolution (solveStakes_eq_some S hD.ne')⟩

-- Characterization of membership in the `sure_bets` output, given the best odds.
theorem inSureBets_eq_true_iff (rec : MergedRow) (b1 bx b2 : ℚ)
    (h1 : best_1 rec = some b1) (hx : best_x rec = some bx) (h2 : best_2 rec = some b2) :
    inSureBets rec = true ↔ (0 < b1 ∧ 0 < bx ∧ 0 < b2 ∧ implied b1 bx b2 < 1) := by
  unfold inSureBets
  rw [h1, hx, h2]
  simp [and_assoc]

/-! ### Claim theorems: stake allocator and arbitrage evaluator -/

/-- C1 (code evaluated at the failing input): for a merged event where source
"A" offers home odds 2 and source "B" offers home odds 3, the evaluator of
`find_surebet.py` (and `f_surebet.py`) sets `best_1 = 2` with source "A"
(row-wise `min`/`idxmin`), whereas the maximum demanded by the claim — and
computed by `find_surebet_all.py` — is 3 from source "B". -/
theorem c1_evaluator_takes_min_not_max :
    best_1 ⟨"k", [("A", some (2, 3, 4)), ("B", some (3, 3, 4))]⟩ = some 2 ∧
    best_1_source ⟨"k", [("A", some (2, 3, 4)), ("B", some (3, 3, 4))]⟩ = some "A" ∧
    best_1_all ⟨"k", [("A", some (2, 3, 4)), ("B", some (3, 3, 4))]⟩ = some 3 ∧
    best_1_source_all ⟨"k", [("A", some (2, 3, 4)), ("B", some (3, 3, 4))]⟩ = some "B" ∧
    (2 : ℚ) ≠ 3 :=
  ⟨by decide, by decide, by decide, by decide, by norm_num⟩

/-- C10: the stake allocator is total — on every rational input it returns a
plan with the six fields, and that plan is either the all-zero plan (any
solver failure) or has nonnegative stakes solving the equal-payout system,
with profits `odds_i * stake_i - total_stake`. -/
theorem c10_allocator_total (o1 o2 o3 S : ℚ) :
    beat_bookies o1 o2 o3 S = zeroPlan ∨
    (0 ≤ (beat_bookies o1 o2 o3 S).Stake1 ∧ 0 ≤ (beat_bookies o1 o2 o3 S).Stake2 ∧
     0 ≤ (beat_bookies o1 o2 o3 S).Stake3 ∧
     isStakeSolution o1 o2 o3 S (beat_bookies o1 o2 o3 S).Stake1
       (beat_bookies o1 o2 o3 S).Stake2 (beat_bookies o1 o2 o3 S).Stake3 ∧
     (beat_bookies o1 o2 o3 S).Profit1 = o1 * (beat_bookies o1 o2 o3 S).Stake1 - S ∧
     (beat_bookies o1 o2 o3 S).Profit2 = o2 * (beat_bookies o1 o2 o3 S).Stake2 - S ∧
     (beat_bookies o1 o2 o3 S).Profit3 = o3 * (beat_bookies o1 o2 o3 S).Stake3 - S) :=
  beat_bookies_cases o1 o2 o3 S

/-- C7: if no nonnegative solution of the equal-payout system exists for a
candidate's best odds, the allocator returns the all-zero plan, and the
candidate does not appear in the `sure_bets` output. -/
theorem c7_no_solution_zero_plan_and_excluded (o1 o2 o3 S : ℚ) (hS : 0 < S)
    (rec : MergedRow) (h1 : best_1 rec = some o1) (hx : best_x rec = some o2)
    (h2 : best_2 rec = some o3) (hno : ¬ NonnegSolutionExists o1 o2 o3 S) :
    beat_bookies o1 o2 o3 S = zeroPlan ∧ inSureBets rec = false := by
  constructor
  · rcases beat_bookies_cases o1 o2 o3 S with hz | ⟨n1, n2, n3, hsol, _⟩
    · exact hz
    · exact absurd ⟨_, _, _, n1, n2, n3, hsol⟩ hno
  · by_contra hmem
    rw [Bool.not_eq_false, inSureBets_eq_true_iff rec o1 o2 o3 h1 hx h2] at hmem
    exact hno (nonneg_solution_of_pos hmem.1 hmem.2.1 hmem.2.2.1 hS.le)

/-- C7 witness: at odds (-1, 2, 2) and total stake 100 there is no nonnegative
solution, the allocator returns the zero plan, and the single-source event
carrying these odds is excluded from the output. -/
theorem c7_witness :
    (0 : ℚ) < 100 ∧
    best_1 ⟨"w", [("A", some (-1, 2, 2))]⟩ = some (-1) ∧
    beat_bookies (-1) 2 2 100 = zeroPlan ∧
    inSureBets ⟨"w", [("A", some (-1, 2, 2))]⟩ = false := by
  refine ⟨by norm_num, by decide, ?_⟩
  refine c7_no_solution_zero_plan_and_excluded (-1) 2 2 100 (by norm_num)
    ⟨"w", [("A", some (-1, 2, 2))]⟩ (by decide) (by decide) (by decide) ?_
  rintro ⟨s1, s2, s3, n1, n2, n3, hsum, he2, he3⟩
  -- -s1 = 2*s2 and -s1 = 2*s3 force s1 = s2 = s3 = 0, contradicting the sum 100
  simp only [neg_mul, one_mul] at he2 he3
  linarith

/-- C2: for a qualifying candidate (all odds positive, implied probability
< 1) and a positive total stake S, both `beat_bookies` variants return the
closed-form stakes `S / (o_i * implied)`; the stakes are nonnegative and sum
to S, and the three profits `o_i * stake_i - S` all equal
`S * (1/implied - 1)`, which is nonnegative. -/
theorem c2_equal_profit_allocation (o1 o2 o3 S : ℚ)
    (h1 : 0 < o1) (h2 : 0 < o2) (h3 : 0 < o3)
    (hI : implied o1 o2 o3 < 1) (hS : 0 < S) :
    beat_bookies o1 o2 o3 S =
      { Stake1 := S / (o1 * implied o1 o2 o3), Stake2 := S / (o2 * implied o1 o2 o3),
        Stake3 := S / (o3 * implied o1 o2 o3),
        Profit1 := S * (1 / implied o1 o2 o3 - 1), Profit2 := S * (1 / implied o1 o2 o3 - 1),
        Profit3 := S * (1 / implied o1 o2 o3 - 1) } ∧
    beat_bookies_all o1 o2 o3 S = beat_bookies o1 o2 o3 S ∧
    0 ≤ S / (o1 * implied o1 o2 o3) ∧ 0 ≤ S / (o2 * implied o1 o2 o3) ∧
    0 ≤ S / (o3 * implied o1 o2 o3) ∧
    S / (o1 * implied o1 o2 o3) + S / (o2 * implied o1 o2 o3) +
      S / (o3 * implied o1 o2 o3) = S ∧
    o1 * (S / (o1 * implied o1 o2 o3)) - S = S * (1 / implied o1 o2 o3 - 1) ∧
    o2 * (S / (o2 * implied o1 o2 o3)) - S = S * (1 / implied o1 o2 o3 - 1) ∧
    o3 * (S / (o3 * implied o1 o2 o3)) - S = S * (1 / implied o1 o2 o3 - 1) ∧
    0 ≤ S * (1 / implied o1 o2 o3 - 1) := by
  have hIpos : 0 < implied o1 o2 o3 :=
    add_pos (add_pos (one_div_pos.2 h1) (one_div_pos.2 h2)) (one_div_pos.2 h3)
  have hD := det_pos h1 h2 h3
  have hsolve := solveStakes_eq_some S hD.ne'
  have e1 : S * (o2 * o3) / (o1 * o2 + o1 * o3 + o2 * o3) = S / (o1 * implied o1 o2 o3) := by
    rw [div_eq_div_iff hD.ne' (mul_pos h1 hIpos).ne']
    unfold implied
    field_simp
    ring
  have e2 : S * (o1 * o3) / (o1 * o2 + o1 * o3 + o2 * o3) = S / (o2 * implied o1 o2 o3) := by
    rw [div_eq_div_iff hD.ne' (mul_pos h2 hIpos).ne']
    unfold implied
    field_simp
    ring
  have e3 : S * (o1 * o2) / (o1 * o2 + o1 * o3 + o2 * o3) = S / (o3 * implied o1 o2 o3) := by
    rw [div_eq_div_iff hD.ne' (mul_pos h3 hIpos).ne']
    unfold implied
    field_simp
    ring
  have hIinv : 1 / implied o1 o2 o3 =
      o1 * o2 * o3 / (o1 * o2 + o1 * o3 + o2 * o3) := by
    rw [div_eq_div_iff hIpos.ne' hD.ne']
    unfold implied
    field_simp
    ring
  have pr1 : o1 * (S / (o1 * implied o1 o2 o3)) - S = S * (1 / implied o1 o2 o3 - 1) := by
    rw [← e1, hIinv]
    field_simp
    ring
  have pr2 : o2 * (S / (o2 * implied o1 o2 o3)) - S = S * (1 / implied o1 o2 o3 - 1) := by
    rw [← e2, hIinv]
    field_simp
    ring
  have pr3 : o3 * (S / (o3 * implied o1 o2 o3)) - S = S * (1 / implied o1 o2 o3 - 1) := by
    rw [← e3, hIinv]
    field_simp
    ring
  have nn1 : 0 ≤ S / (o1 * implied o1 o2 o3) :=
    div_nonneg hS.le (mul_pos h1 hIpos).le
  have nn2 : 0 ≤ S / (o2 * implied o1 o2 o3) :=
    div_nonneg hS.le (mul_pos h2 hIpos).le
  have nn3 : 0 ≤ S / (o3 * implied o1 o2 o3) :=
    div_nonneg hS.le (mul_pos h3 hIpos).le
  have hnotneg : ¬ (S * (o2 * o3) / (o1 * o2 + o1 * o3 + o2 * o3) < 0 ∨
      S * (o1 * o3) / (o1 * o2 + o1 * o3 + o2 * o3) < 0 ∨
      S * (o1 * o2) / (o1 * o2 + o1 * o3 + o2 * o3) < 0) := by
    push_neg
    exact ⟨div_nonneg (mul_nonneg hS.le (mul_pos h2 h3).le) hD.le,
           div_nonneg (mul_nonneg hS.le (mul_pos h1 h3).le) hD.le,
           div_nonneg (mul_nonneg hS.le (mul_pos h1 h2).le) hD.le⟩
  have hsum : S / (o1 * implied o1 o2 o3) + S / (o2 * implied o1 o2 o3) +
      S / (o3 * implied o1 o2 o3) = S := by
    rw [← e1, ← e2, ← e3, div_add_div_same, div_add_div_same, div_eq_iff hD.ne']
    ring
  have hmain : beat_bookies o1 o2 o3 S =
      { Stake1 := S / (o1 * implied o1 o2 o3), Stake2 := S / (o2 * implied o1 o2 o3),
        Stake3 := S / (o3 * implied o1 o2 o3),
        Profit1 := S * (1 / implied o1 o2 o3 - 1), Profit2 := S * (1 / implied o1 o2 o3 - 1),
        Profit3 := S * (1 / implied o1 o2 o3 - 1) } := by
    rw [beat_bookies_of_solve hsolve, if_neg hnotneg]
    simp only [StakePlan.mk.injEq]
    exact ⟨e1, e2, e3, by rw [e1]; exact pr1, by rw [e2]; exact pr2, by rw [e3]; exact pr3⟩
  have hall : beat_bookies_all o1 o2 o3 S = beat_bookies o1 o2 o3 S := by
    unfold beat_bookies_all
    rw [hsolve, beat_bookies_of_solve hsolve, if_neg hnotneg]
  have hprofit : 0 ≤ S * (1 / implied o1 o2 o3 - 1) := by
    have hinv : 1 < 1 / implied o1 o2 o3 := by
      rw [lt_div_iff₀ hIpos]
      linarith
    have : 0 ≤ 1 / implied o1 o2 o3 - 1 := by linarith
    exact mul_nonneg hS.le this
  exact ⟨hmain, hall, nn1, nn2, nn3, hsum, pr1, pr2, pr3, hprofit⟩

/-- C2 witness: odds (4, 4, 4) with implied probability 3/4 and total
stake 100. -/
theorem c2_equal_profit_allocation_witness :
    ((0 : ℚ) < 4 ∧ implied 4 4 4 < 1 ∧ (0 : ℚ) < 100) ∧
    (beat_bookies 4 4 4 100 =
      { Stake1 := 100 / (4 * implied 4 4 4), Stake2 := 100 / (4 * implied 4 4 4),
        Stake3 := 100 / (4 * implied 4 4 4),
        Profit1 := 100 * (1 / implied 4 4 4 - 1), Profit2 := 100 * (1 / implied 4 4 4 - 1),
        Profit3 := 100 * (1 / implied 4 4 4 - 1) } ∧
    beat_bookies_all 4 4 4 100 = beat_bookies 4 4 4 100 ∧
    0 ≤ (100 : ℚ) / (4 * implied 4 4 4) ∧ 0 ≤ (100 : ℚ) / (4 * implied 4 4 4) ∧
    0 ≤ (100 : ℚ) / (4 * implied 4 4 4) ∧
    (100 : ℚ) / (4 * implied 4 4 4) + 100 / (4 * implied 4 4 4) +
      100 / (4 * implied 4 4 4) = 100 ∧
    (4 : ℚ) * (100 / (4 * implied 4 4 4)) - 100 = 100 * (1 / implied 4 4 4 - 1) ∧
    (4 : ℚ) * (100 / (4 * implied 4 4 4)) - 100 = 100 * (1 / implied 4 4 4 - 1) ∧
    (4 : ℚ) * (100 / (4 * implied 4 4 4)) - 100 = 100 * (1 / implied 4 4 4 - 1) ∧
    0 ≤ (100 : ℚ) * (1 / implied 4 4 4 - 1)) :=
  ⟨⟨by norm_num, by norm_num [implied], by norm_num⟩,
    c2_equal_profit_allocation 4 4 4 100 (by norm_num) (by norm_num) (by norm_num)
      (by norm_num [implied]) (by norm_num)⟩

/-- C3: a merged event whose three best odds are determined and positive is
in the `sure_bets` output if and only if its implied probability is strictly
below 1. -/
theorem c3_surebet_iff_implied_lt_one (rec : MergedRow) (b1 bx b2 : ℚ)
    (h1 : best_1 rec = some b1) (hx : best_x rec = some bx) (h2 : best_2 rec = some b2)
    (p1 : 0 < b1) (px : 0 < bx) (p2 : 0 < b2) :
    inSureBets rec = true ↔ implied b1 bx b2 < 1 := by
  rw [inSureBets_eq_true_iff rec b1 bx b2 h1 hx h2]
  simp [p1, px, p2]

/-- C3 witness: a single-source event with odds (4, 4, 4), implied 3/4. -/
theorem c3_surebet_iff_implied_lt_one_witness :
    (best_1 ⟨"w3", [("A", some (4, 4, 4))]⟩ = some 4 ∧ (0 : ℚ) < 4) ∧
    (inSureBets ⟨"w3", [("A", some (4, 4, 4))]⟩ = true ↔ implied 4 4 4 < 1) :=
  ⟨⟨by decide, by norm_num⟩,
    c3_surebet_iff_implied_lt_one ⟨"w3", [("A", some (4, 4, 4))]⟩ 4 4 4
      (by decide) (by decide) (by decide) (by norm_num) (by norm_num) (by norm_num)⟩

/-- C8 counterexample: the first odds 0 is non-positive, yet the allocator
returns the plan (100, 0, 0) — a positive first stake, not a rejection. -/
theorem c8_counterexample :
    beat_bookies 0 2 2 100 =
      { Stake1 := 100, Stake2 := 0, Stake3 := 0,
        Profit1 := -100, Profit2 := -100, Profit3 := -100 } ∧
    0 < (beat_bookies 0 2 2 100).Stake1 ∧ ¬ (0 < (0 : ℚ)) := by
  refine ⟨by norm_num [beat_bookies, solveStakes], ?_, by norm_num⟩
  rw [show beat_bookies 0 2 2 100 =
      { Stake1 := 100, Stake2 := 0, Stake3 := 0,
        Profit1 := -100, Profit2 := -100, Profit3 := -100 } from by
    norm_num [beat_bookies, solveStakes]]
  norm_num

/-- C8 amended: the allocator does not reject non-positive odds. When the
first odds is exactly 0 and the other two are positive, the solved system
puts the entire (positive) total stake on the zero-odds outcome: the plan is
(S, 0, 0) with all three profits equal to -S. (With a strictly negative
single odds the solved stakes go negative and the zero plan is returned, but
zero odds — and all-negative odds — produce positive-stake plans.) -/
theorem c8_amended_zero_odds_not_rejected (o2 o3 S : ℚ)
    (h2 : 0 < o2) (h3 : 0 < o3) (hS : 0 < S) :
    beat_bookies 0 o2 o3 S =
      { Stake1 := S, Stake2 := 0, Stake3 := 0,
        Profit1 := -S, Profit2 := -S, Profit3 := -S } ∧
    0 < (beat_bookies 0 o2 o3 S).Stake1 := by
  have hD : (0 : ℚ) * o2 + 0 * o3 + o2 * o3 ≠ 0 := by
    simpa using (mul_pos h2 h3).ne'
  have hsolve := solveStakes_eq_some S hD
  have hs1 : S * (o2 * o3) / ((0 : ℚ) * o2 + 0 * o3 + o2 * o3) = S := by
    rw [show (0 : ℚ) * o2 + 0 * o3 + o2 * o3 = o2 * o3 by ring]
    field_simp
  have heq : beat_bookies 0 o2 o3 S =
      { Stake1 := S, Stake2 := 0, Stake3 := 0,
        Profit1 := -S, Profit2 := -S, Profit3 := -S } := by
    rw [beat_bookies_of_solve hsolve, if_neg]
    · simp only [StakePlan.mk.injEq]
      refine ⟨hs1, by simp, by simp, ?_, ?_, ?_⟩
      · rw [hs1]; ring
      · simp
      · simp
    · push_neg
      refine ⟨by rw [hs1]; exact hS.le, by simp, by simp⟩
  exact ⟨heq, by rw [heq]; exact hS⟩

/-- C8 amended witness: odds (0, 2, 2), total stake 100. -/
theorem c8_amended_witness :
    ((0 : ℚ) < 2 ∧ (0 : ℚ) < 100) ∧
    beat_bookies 0 2 2 100 =
      { Stake1 := 100, Stake2 := 0, Stake3 := 0,
        Profit1 := -100, Profit2 := -100, Profit3 := -100 } ∧
    0 < (beat_bookies 0 2 2 100).Stake1 :=
  ⟨⟨by norm_num, by norm_num⟩,
    c8_amended_zero_odds_not_rejected 2 2 100 (by norm_num) (by norm_num) (by norm_num)⟩

/-! ### Helper lemmas about the merge, the deduplication and the schema -/

-- Equation lemma: `acceptedMatch` when the argmax exists.
theorem acceptedMatch_of_argmax {score : String → String → ℚ} {t : ℚ} {mk : String}
    {ks : List String} {bk : String} {bs : ℚ}
    (h : argmaxScore score mk ks = some (bk, bs)) :
    acceptedMatch score t mk ks = if bs ≥ t then some bk else none := by
  unfold acceptedMatch
  rw [h]

-- Equation lemma: `acceptedMatch` when the key list is empty.
theorem acceptedMatch_of_none {score : String → String → ℚ} {t : ℚ} {mk : String}
    {ks : List String} (h : argmaxScore score mk ks = none) :
    acceptedMatch score t mk ks = none := by
  unfold acceptedMatch
  rw [h]

-- The keys of the merged records are exactly the master keys.
theorem merge_map_key (score : String → String → ℚ) (srcs : List Source) (t : ℚ) :
    (full_multiway_fuzzy_merge score srcs t).map MasterRecord.key = masterKeys srcs := by
  unfold full_multiway_fuzzy_merge
  rw [List.map_map]
  have h : MasterRecord.key ∘ mkRecord score srcs t = id := rfl
  rw [h, List.map_id]

-- Rows kept by `keepFirstByKey` come from the input list.
theorem mem_of_mem_keepFirstByKey {x : CRow} (seen : List (String × String × String))
    (l : List CRow) (hx : x ∈ keepFirstByKey seen l) : x ∈ l := by
  induction l generalizing seen with
  | nil => simp [keepFirstByKey] at hx
  | cons r rs ih =>
    unfold keepFirstByKey at hx
    by_cases hmem : rowKey r ∈ seen
    · rw [if_pos hmem] at hx
      exact List.mem_cons_of_mem _ (ih _ hx)
    · rw [if_neg hmem] at hx
      rcases List.mem_cons.1 hx with he | hx'
      · exact he ▸ List.mem_cons_self _ _
      · exact List.mem_cons_of_mem _ (ih _ hx')

-- Once a key is recorded as seen, no row with that key survives.
theorem keepFirst_filter_of_seen (k : String × String × String)
    (seen : List (String × String × String)) (l : List CRow) (hk : k ∈ seen) :
    (keepFirstByKey seen l).filter (fun s => decide (rowKey s = k)) = [] := by
  induction l generalizing seen with
  | nil => rfl
  | cons r rs ih =>
    unfold keepFirstByKey
    by_cases hmem : rowKey r ∈ seen
    · rw [if_pos hmem]
      exact ih seen hk
    · rw [if_neg hmem]
      have hne : ¬ rowKey r = k := fun he => hmem (he ▸ hk)
      rw [List.filter_cons]
      simp only [hne, decide_False, Bool.false_eq_true, if_false]
      exact ih (rowKey r :: seen) (List.mem_cons_of_mem _ hk)

-- Before a key is seen, the surviving rows with that key are exactly the
-- first input row with that key.
theorem keepFirst_filter_of_not_seen (k : String × String × String)
    (seen : List (String × String × String)) (l : List CRow) (hk : k ∉ seen) :
    (keepFirstByKey seen l).filter (fun s => decide (rowKey s = k)) =
      (l.find? fun s => decide (rowKey s = k)).toList := by
  induction l generalizing seen with
  | nil => rfl
  | cons r rs ih =>
    unfold keepFirstByKey
    by_cases hmem : rowKey r ∈ seen
    · have hne : ¬ rowKey r = k := fun he => hk (he ▸ hmem)
      rw [if_pos hmem, ih seen hk, List.find?_cons_of_neg _ (by simpa using hne)]
    · rw [if_neg hmem]
      by_cases heq : rowKey r = k
      · rw [List.filter_cons, List.find?_cons_of_pos _ (by simpa using heq)]
        simp only [heq, decide_True, if_true]
        rw [keepFirst_filter_of_seen k (k :: seen) rs (List.mem_cons_self _ _)]
        rfl
      · rw [List.filter_cons, List.find?_cons_of_neg _ (by simpa using heq)]
        simp only [heq, decide_False, Bool.false_eq_true, if_false]
        exact ih (rowKey r :: seen) fun hc =>
          (List.mem_cons.1 hc).elim (fun h => heq h.symm) hk

-- In a list sorted by odds-sum, the first row found with a given key has
-- minimal odds-sum among all rows with that key.
theorem find?_min_of_sorted (k : String × String × String) (l : List CRow) (r : CRow)
    (hs : List.Sorted oddsLE l)
    (hf : l.find? (fun s => decide (rowKey s = k)) = some r) :
    ∀ s ∈ l, rowKey s = k → sumOdds r ≤ sumOdds s := by
  induction l with
  | nil => simp at hf
  | cons a as ih =>
    rw [List.sorted_cons] at hs
    by_cases ha : rowKey a = k
    · rw [List.find?_cons_of_pos _ (by simpa using ha)] at hf
      have har : a = r := by injection hf
      subst har
      intro s hsmem hks
      rcases List.mem_cons.1 hsmem with rfl | hmem
      · exact le_refl _
      · exact hs.1 s hmem
    · rw [List.find?_cons_of_neg _ (by simpa using ha)] at hf
      intro s hsmem hks
      rcases List.mem_cons.1 hsmem with rfl | hmem
      · exact absurd hks ha
      · exact ih hs.2 hf s hmem hks

/-! ### Claim theorems: merge, fuzzy matching, deduplication, schema -/

/-- C4: the merge emits exactly one record per key of the union of all
sources' merge keys (count 1 for keys in the union, 0 otherwise), and every
row of every source contributes its key, so no row's event is dropped at the
merge stage. -/
theorem c4_merge_one_record_per_key (score : String → String → ℚ)
    (srcs : List Source) (t : ℚ) (k : String) (_hne : srcs ≠ []) (_ht : t ≤ 100) :
    ((full_multiway_fuzzy_merge score srcs t).map MasterRecord.key).count k =
      (if k ∈ srcs.flatMap keysOf then 1 else 0) ∧
    ∀ src ∈ srcs, ∀ r ∈ src.rows,
      mergeKey r ∈ (full_multiway_fuzzy_merge score srcs t).map MasterRecord.key := by
  rw [merge_map_key]
  constructor
  · exact List.count_dedup _ _
  · intro src hsrc r hr
    rw [masterKeys, List.mem_dedup, List.mem_flatMap]
    exact ⟨src, hsrc, List.mem_map_of_mem mergeKey hr⟩

/-- C4 witness: one source with a single row, threshold 80. -/
theorem c4_merge_one_record_per_key_witness :
    (([⟨"A", [⟨"h", "a", "t", 2, 3, 4⟩]⟩] : List Source) ≠ [] ∧ (80 : ℚ) ≤ 100) ∧
    (((full_multiway_fuzzy_merge (fun _ _ => 100) [⟨"A", [⟨"h", "a", "t", 2, 3, 4⟩]⟩] 80).map
        MasterRecord.key).count (mergeKey ⟨"h", "a", "t", 2, 3, 4⟩) =
      (if mergeKey ⟨"h", "a", "t", 2, 3, 4⟩ ∈
          ([⟨"A", [⟨"h", "a", "t", 2, 3, 4⟩]⟩] : List Source).flatMap keysOf then 1 else 0) ∧
    ∀ src ∈ ([⟨"A", [⟨"h", "a", "t", 2, 3, 4⟩]⟩] : List Source), ∀ r ∈ src.rows,
      mergeKey r ∈ (full_multiway_fuzzy_merge (fun _ _ => 100)
        [⟨"A", [⟨"h", "a", "t", 2, 3, 4⟩]⟩] 80).map MasterRecord.key) :=
  ⟨⟨List.cons_ne_nil _ _, by norm_num⟩,
    c4_merge_one_record_per_key (fun _ _ => 100) [⟨"A", [⟨"h", "a", "t", 2, 3, 4⟩]⟩] 80
      (mergeKey ⟨"h", "a", "t", 2, 3, 4⟩) (List.cons_ne_nil _ _) (by norm_num)⟩

/-- C5: fuzzy acceptance is threshold-monotonic — a (master key, source)
match accepted at the higher threshold t2 is accepted, with the same matched
key, at any lower threshold t1. -/
theorem c5_threshold_monotonic (score : String → String → ℚ) (t1 t2 : ℚ)
    (src : Source) (mk k : String) (hle : t1 ≤ t2)
    (hacc : acceptedMatch score t2 mk (keysOf src) = some k) :
    acceptedMatch score t1 mk (keysOf src) = some k := by
  cases harg : argmaxScore score mk (keysOf src) with
  | none => rw [acceptedMatch_of_none harg] at hacc; cases hacc
  | some p =>
    obtain ⟨bk, bs⟩ := p
    rw [acceptedMatch_of_argmax harg] at hacc
    rw [acceptedMatch_of_argmax harg]
    by_cases hge : bs ≥ t2
    · rw [if_pos hge] at hacc
      rw [if_pos (le_trans hle hge)]
      exact hacc
    · rw [if_neg hge] at hacc
      cases hacc

/-- C5 witness: a constant-90 scorer, thresholds 70 ≤ 80. -/
theorem c5_threshold_monotonic_witness :
    ((70 : ℚ) ≤ 80 ∧
      acceptedMatch (fun _ _ => 90) 80 "q" (keysOf ⟨"A", [⟨"h", "a", "t", 2, 3, 4⟩]⟩) =
        some (mergeKey ⟨"h", "a", "t", 2, 3, 4⟩)) ∧
    acceptedMatch (fun _ _ => 90) 70 "q" (keysOf ⟨"A", [⟨"h", "a", "t", 2, 3, 4⟩]⟩) =
      some (mergeKey ⟨"h", "a", "t", 2, 3, 4⟩) := by
  have harg : argmaxScore (fun _ _ => (90 : ℚ)) "q"
      (keysOf ⟨"A", [⟨"h", "a", "t", 2, 3, 4⟩]⟩) =
      some (mergeKey ⟨"h", "a", "t", 2, 3, 4⟩, 90) := by
    simp [argmaxScore, keysOf]
  have hacc : acceptedMatch (fun _ _ => (90 : ℚ)) 80 "q"
      (keysOf ⟨"A", [⟨"h", "a", "t", 2, 3, 4⟩]⟩) =
      some (mergeKey ⟨"h", "a", "t", 2, 3, 4⟩) := by
    rw [acceptedMatch_of_argmax harg]
    norm_num
  exact ⟨⟨by norm_num, hacc⟩,
    c5_threshold_monotonic (fun _ _ => 90) 70 80 ⟨"A", [⟨"h", "a", "t", 2, 3, 4⟩]⟩ "q"
      (mergeKey ⟨"h", "a", "t", 2, 3, 4⟩) (by norm_num) hacc⟩

/-- C6: among the rows of one source sharing a (home, away, time) key,
exactly one row is kept by the deduplication, it is one of the input rows of
that group, and its odds-sum is minimal within the group. -/
theorem c6_dedup_keeps_min_sum_row (rows : List CRow) (k : String × String × String)
    (hk : ∃ r ∈ rows, rowKey r = k) :
    ∃ r, (dedupMinSum rows).filter (fun s => decide (rowKey s = k)) = [r] ∧
      r ∈ rows ∧ rowKey r = k ∧
      ∀ s ∈ rows, rowKey s = k → sumOdds r ≤ sumOdds s := by
  have hperm := List.perm_insertionSort oddsLE rows
  have hsorted := List.sorted_insertionSort oddsLE rows
  obtain ⟨r0, hr0, hkr0⟩ := hk
  have hex : ∃ s ∈ List.insertionSort oddsLE rows,
      (fun s => decide (rowKey s = k)) s = true :=
    ⟨r0, hperm.mem_iff.2 hr0, by simpa using hkr0⟩
  obtain ⟨r, hf⟩ := Option.isSome_iff_exists.1 (List.find?_isSome.2 hex)
  refine ⟨r, ?_, ?_, ?_, ?_⟩
  · rw [dedupMinSum, keepFirst_filter_of_not_seen k [] _ (List.not_mem_nil k), hf]
    rfl
  · exact hperm.mem_iff.1 (List.mem_of_find?_eq_some hf)
  · have hp := List.find?_some hf
    simp only [decide_eq_true_eq] at hp
    exact hp
  · intro s hs hks
    exact find?_min_of_sorted k _ r hsorted hf s (hperm.mem_iff.2 hs) hks

/-- C6 witness: two rows with the same key and odds-sums 9 and 6 — the kept
row has the minimal sum. -/
theorem c6_dedup_witness :
    (∃ r ∈ [(⟨"h", "a", "t", 3, 3, 3⟩ : CRow), ⟨"h", "a", "t", 2, 2, 2⟩],
      rowKey r = ("h", "a", "t")) ∧
    (∃ r, (dedupMinSum [(⟨"h", "a", "t", 3, 3, 3⟩ : CRow), ⟨"h", "a", "t", 2, 2, 2⟩]).filter
        (fun s => decide (rowKey s = ("h", "a", "t"))) = [r] ∧
      r ∈ [(⟨"h", "a", "t", 3, 3, 3⟩ : CRow), ⟨"h", "a", "t", 2, 2, 2⟩] ∧
      rowKey r = ("h", "a", "t") ∧
      ∀ s ∈ [(⟨"h", "a", "t", 3, 3, 3⟩ : CRow), ⟨"h", "a", "t", 2, 2, 2⟩],
        rowKey s = ("h", "a", "t") → sumOdds r ≤ sumOdds s) :=
  ⟨⟨⟨"h", "a", "t", 3, 3, 3⟩, by simp, rfl⟩,
    c6_dedup_keeps_min_sum_row [⟨"h", "a", "t", 3, 3, 3⟩, ⟨"h", "a", "t", 2, 2, 2⟩]
      ("h", "a", "t") ⟨⟨"h", "a", "t", 3, 3, 3⟩, by simp, rfl⟩⟩

/-- C9 counterexample: a post-mapping column set with everything except
`away` still fails validation in `find_surebet.py` — its `REQUIRED_COLUMNS`
includes `away` ("Now require both teams!") — refuting the claim that a
missing `away` alone does not cause the failure. -/
theorem c9_counterexample :
    missingColumns ["home", "1", "x", "2", "time"] = ["away"] ∧
    validate_schema_ok ["home", "1", "x", "2", "time"] = false :=
  ⟨by decide, by decide⟩

/-- C9 amended: validation fails exactly when one of home, away, 1, x, 2,
time is absent after mapping (`away` included), and on failure the caller
skips that source and continues with the remaining ones. -/
theorem c9_amended_away_also_required (cols : List String) (name : String)
    (pre post : List (String × List String)) :
    (validate_schema_ok cols = false ↔
      ∃ c ∈ REQUIRED_COLUMNS, cols.contains c = false) ∧
    (validate_schema_ok cols = false →
      cleanSources (pre ++ (name, cols) :: post) =
        cleanSources pre ++ cleanSources post) := by
  constructor
  · rw [validate_schema_ok, Bool.eq_false_iff, ne_eq, List.isEmpty_iff, missingColumns,
      List.filter_eq_nil_iff]
    push_neg
    simp
  · intro hfail
    unfold cleanSources
    rw [List.filterMap_append, List.filterMap_cons]
    simp [hfail]

/-- C9 amended witness: the all-but-away column set fails and its source is
skipped between two surviving sources. -/
theorem c9_amended_witness :
    validate_schema_ok ["home", "1", "x", "2", "time"] = false ∧
    cleanSources ([("s1", REQUIRED_COLUMNS)] ++
        ("s2", ["home", "1", "x", "2", "time"]) :: [("s3", REQUIRED_COLUMNS)]) =
      cleanSources [("s1", REQUIRED_COLUMNS)] ++ cleanSources [("s3", REQUIRED_COLUMNS)] := by
  have h := c9_amended_away_also_required ["home", "1", "x", "2", "time"] "s2"
    [("s1", REQUIRED_COLUMNS)] [("s3", REQUIRED_COLUMNS)]
  have hfail : validate_schema_ok ["home", "1", "x", "2", "time"] = false := by decide
  exact ⟨hfail, h.2 hfail⟩

end SureBet
